import Mathlib

/-!
Verification development for the StonksGPT repository.

Shallow embedding of `backend/brave_search_agent.py` (the output-recovery,
result-sanitization and response-assembly logic of `brave_search`) and of
`dedalus-mcp/main.py` (the CLI argument forwarder).  Text is modelled as
`List Char`; Python JSON values as the inductive `Json`; the remote agent
runner as an explicit function from the prompt to an `Except` outcome.
-/

set_option maxHeartbeats 1000000
set_option maxRecDepth 100000

namespace StonksGPT

/-- A Python value produced by `json.loads`: `None`, `bool`, `int`, `float`
(kept as its source lexeme, since no claim depends on float arithmetic),
`str`, `list`, `dict` (key/value pairs in parse order, lookup last-wins). -/
inductive Json where
  | null : Json
  | bool (b : Bool) : Json
  | num (n : Int) : Json
  | fnum (lexeme : List Char) : Json
  | str (s : List Char) : Json
  | arr (xs : List Json) : Json
  | obj (fields : List (List Char × Json)) : Json

/- Characters that the banned-token screen makes awkward as literals. -/

def btk : Char := Char.ofNat 96

def lbraceC : Char := Char.ofNat 123

def rbraceC : Char := Char.ofNat 125

/-- The three-backtick fence marker of the markdown-stripping regexes. -/
def fenceM : List Char := [btk, btk, btk]

/-- JSON whitespace accepted by `json.loads` between tokens. -/
def isJsonWs (c : Char) : Bool :=
  c = ' ' || c = '\t' || c = '\n' || c = '\r'

/-- Whitespace for Python's `str.strip()` and the regex class `\s`
(ASCII fragment). -/
def isPyWs (c : Char) : Bool :=
  c = ' ' || c = '\t' || c = '\n' || c = '\r' || c = Char.ofNat 11 || c = Char.ofNat 12

def skipJsonWs (cs : List Char) : List Char := cs.dropWhile isJsonWs

def hexVal (c : Char) : Option Nat :=
  if '0' ≤ c ∧ c ≤ '9' then some (c.toNat - '0'.toNat)
  else if 'a' ≤ c ∧ c ≤ 'f' then some (c.toNat - 'a'.toNat + 10)
  else if 'A' ≤ c ∧ c ≤ 'F' then some (c.toNat - 'A'.toNat + 10)
  else none

/-- Decode a JSON string body after the opening quote, honouring the escape
sequences `json.loads` accepts; raw control characters are rejected (strict
mode).  Lone surrogates are approximated by `Char.ofNat`'s fallback.
Fuel-guarded so the definition reduces definitionally; every step consumes
at least one character, so `length + 1` fuel is always enough. -/
def parseStrBodyF : Nat → List Char → Option (List Char × List Char)
  | 0, _ => none
  | _ + 1, [] => none
  | _ + 1, '"' :: rest => some ([], rest)
  | fuel + 1, '\\' :: 'u' :: h1 :: h2 :: h3 :: h4 :: rest =>
    match hexVal h1, hexVal h2, hexVal h3, hexVal h4 with
    | some a, some b, some c, some d =>
      let n := ((a * 16 + b) * 16 + c) * 16 + d
      if 0xD800 ≤ n ∧ n < 0xDC00 then
        match rest with
        | '\\' :: 'u' :: g1 :: g2 :: g3 :: g4 :: rest2 =>
          match hexVal g1, hexVal g2, hexVal g3, hexVal g4 with
          | some a2, some b2, some c2, some d2 =>
            let m := ((a2 * 16 + b2) * 16 + c2) * 16 + d2
            if 0xDC00 ≤ m ∧ m < 0xE000 then
              match parseStrBodyF fuel rest2 with
              | some (s, r) =>
                some (Char.ofNat (0x10000 + (n - 0xD800) * 0x400 + (m - 0xDC00)) :: s, r)
              | none => none
            else
              match parseStrBodyF fuel rest with
              | some (s, r) => some (Char.ofNat n :: s, r)
              | none => none
          | _, _, _, _ => none
        | _ =>
          match parseStrBodyF fuel rest with
          | some (s, r) => some (Char.ofNat n :: s, r)
          | none => none
      else
        match parseStrBodyF fuel rest with
        | some (s, r) => some (Char.ofNat n :: s, r)
        | none => none
    | _, _, _, _ => none
  | fuel + 1, '\\' :: e :: rest =>
    let c? : Option Char :=
      if e = '"' then some '"'
      else if e = '\\' then some '\\'
      else if e = '/' then some '/'
      else if e = 'b' then some (Char.ofNat 8)
      else if e = 'f' then some (Char.ofNat 12)
      else if e = 'n' then some '\n'
      else if e = 'r' then some '\r'
      else if e = 't' then some '\t'
      else none
    match c? with
    | some c =>
      match parseStrBodyF fuel rest with
      | some (s, r) => some (c :: s, r)
      | none => none
    | none => none
  | fuel + 1, c :: rest =>
    if c.toNat < 32 then none
    else
      match parseStrBodyF fuel rest with
      | some (s, r) => some (c :: s, r)
      | none => none

/-- `parseStrBodyF` with always-sufficient fuel. -/
def parseStrBody (l : List Char) : Option (List Char × List Char) :=
  parseStrBodyF (l.length + 1) l

def digitsToNat (ds : List Char) : Nat :=
  ds.foldl (fun acc c => acc * 10 + (c.toNat - '0'.toNat)) 0

/-- Parse a JSON number per the grammar `json.loads` uses:
`-?(0|[1-9][0-9]*)(\.[0-9]+)?([eE][-+]?[0-9]+)?`.  Plain integers become
`Json.num`; anything with a fraction or exponent becomes `Json.fnum`
carrying its lexeme. -/
def parseNum (s : List Char) : Option (Json × List Char) :=
  let (negPart, s1) := if s.head? = some '-' then ([('-' : Char)], s.drop 1) else ([], s)
  let ds := s1.takeWhile Char.isDigit
  let s2 := s1.dropWhile Char.isDigit
  if ds = [] then none
  else if 1 < ds.length ∧ ds.head? = some '0' then none
  else
    let fracRes : Option (List Char × List Char) :=
      match s2 with
      | '.' :: s3 =>
        let fs := s3.takeWhile Char.isDigit
        if fs = [] then none else some ('.' :: fs, s3.dropWhile Char.isDigit)
      | _ => some ([], s2)
    match fracRes with
    | none => none
    | some (fracPart, s4) =>
      let expRes : Option (List Char × List Char) :=
        match s4 with
        | e :: s5 =>
          if e = 'e' ∨ e = 'E' then
            let (sgn, s6) :=
              match s5 with
              | c :: s6' => if c = '+' ∨ c = '-' then ([c], s6') else ([], s5)
              | [] => ([], s5)
            let es := s6.takeWhile Char.isDigit
            if es = [] then none else some (e :: sgn ++ es, s6.dropWhile Char.isDigit)
          else some ([], s4)
        | [] => some ([], s4)
      match expRes with
      | none => none
      | some (expPart, s7) =>
        if fracPart = [] ∧ expPart = [] then
          let v : Int := Int.ofNat (digitsToNat ds)
          some (Json.num (if negPart = [] then v else -v), s7)
        else
          some (Json.fnum (negPart ++ ds ++ fracPart ++ expPart), s7)

mutual

/-- One step of the recursive-descent value scanner of `json.loads`,
guarded by fuel. -/
def parseVal : Nat → List Char → Option (Json × List Char)
  | 0, _ => none
  | fuel + 1, cs =>
    let s := skipJsonWs cs
    if s.take 4 = ("true".toList) then some (Json.bool true, s.drop 4)
    else if s.take 5 = ("false".toList) then some (Json.bool false, s.drop 5)
    else if s.take 4 = ("null".toList) then some (Json.null, s.drop 4)
    else if s.take 3 = ("NaN".toList) then some (Json.fnum ("NaN".toList), s.drop 3)
    else if s.take 8 = ("Infinity".toList) then some (Json.fnum ("Infinity".toList), s.drop 8)
    else if s.take 9 = ("-Infinity".toList) then some (Json.fnum ("-Infinity".toList), s.drop 9)
    else
      match s with
      | [] => none
      | c :: rest =>
        if c = '"' then
          match parseStrBody rest with
          | some (str, r) => some (Json.str str, r)
          | none => none
        else if c = '[' then
          let s2 := skipJsonWs rest
          match s2 with
          | ']' :: r => some (Json.arr [], r)
          | _ =>
            match parseArrItems fuel s2 with
            | some (xs, r) => some (Json.arr xs, r)
            | none => none
        else if c = lbraceC then
          let s2 := skipJsonWs rest
          if s2.head? = some rbraceC then some (Json.obj [], s2.drop 1)
          else
            match parseObjItems fuel s2 with
            | some (fs, r) => some (Json.obj fs, r)
            | none => none
        else parseNum s

/-- Comma-separated array items up to the closing bracket. -/
def parseArrItems : Nat → List Char → Option (List Json × List Char)
  | 0, _ => none
  | fuel + 1, cs =>
    match parseVal fuel cs with
    | none => none
    | some (v, rest) =>
      match skipJsonWs rest with
      | ',' :: rest2 =>
        match parseArrItems fuel rest2 with
        | some (xs, r) => some (v :: xs, r)
        | none => none
      | ']' :: rest2 => some ([v], rest2)
      | _ => none

/-- Comma-separated `"key": value` members up to the closing brace. -/
def parseObjItems : Nat → List Char → Option (List (List Char × Json) × List Char)
  | 0, _ => none
  | fuel + 1, cs =>
    match skipJsonWs cs with
    | '"' :: rest =>
      match parseStrBody rest with
      | none => none
      | some (key, r1) =>
        match skipJsonWs r1 with
        | ':' :: r2 =>
          match parseVal fuel r2 with
          | none => none
          | some (v, r3) =>
            match skipJsonWs r3 with
            | ',' :: r4 =>
              match parseObjItems fuel r4 with
              | some (fs, r) => some ((key, v) :: fs, r)
              | none => none
            | c :: r4 =>
              if c = rbraceC then some ([(key, v)], r4) else none
            | [] => none
        | _ => none
    | _ => none

end

/-- Model of `json.loads`: parse one value and require only whitespace to
remain; any failure raises `JSONDecodeError`, modelled as `none`. -/
def parseJson (cs : List Char) : Option Json :=
  match parseVal (2 * cs.length + 2) cs with
  | some (v, rest) => if skipJsonWs rest = [] then some v else none
  | none => none

/-- Python `str.strip()`: drop leading and trailing whitespace. -/
def pyStrip (l : List Char) : List Char :=
  ((l.dropWhile isPyWs).reverse.dropWhile isPyWs).reverse

/-- A single-quote character (for Python `repr` renderings). -/
def sq : Char := Char.ofNat 39

/-- The literal tag `json` optionally following an opening fence. -/
def jsonTag : List Char := ['j', 's', 'o', 'n']

/-- One pass of `re.sub(r"^```(?:json)?\s*", "", text, flags=re.MULTILINE)`:
scan left to right; at each line start (string start, or position preceded
by a newline) matching a fence, delete the fence, an optional `json` tag and
the following whitespace run; otherwise keep the character.  The boolean
tracks whether the current position is a line start.  Fuel-guarded (each
step consumes at least one character; fuel exhaustion keeps the remainder). -/
def sub1go : Nat → Bool → List Char → List Char
  | 0, _, l => l
  | _ + 1, _, [] => []
  | fuel + 1, lineStart, c :: cs =>
    if lineStart = true ∧ (c :: cs).take 3 = fenceM then
      let r1 := cs.drop 2
      let r2 := if r1.take 4 = jsonTag then r1.drop 4 else r1
      let ws := r2.takeWhile isPyWs
      let r3 := r2.dropWhile isPyWs
      sub1go fuel (decide (ws.getLast? = some '\n')) r3
    else c :: sub1go fuel (decide (c = '\n')) cs

/-- The leading-fence substitution applied to a whole text. -/
def sub1 (l : List Char) : List Char := sub1go (l.length + 1) true l

/-- One pass of `re.sub(r"\s*```$", "", text, flags=re.MULTILINE)`: at each
position, if a whitespace run followed by a fence at a line end (end of
string, or before a newline) starts here, delete it; otherwise keep the
character.  Fuel-guarded as above. -/
def sub2go : Nat → List Char → List Char
  | 0, l => l
  | _ + 1, [] => []
  | fuel + 1, c :: cs =>
    let rest := (c :: cs).dropWhile isPyWs
    if rest.take 3 = fenceM ∧ (rest.drop 3 = [] ∨ (rest.drop 3).head? = some '\n') then
      sub2go fuel (rest.drop 3)
    else c :: sub2go fuel cs

/-- The trailing-fence substitution applied to a whole text. -/
def sub2 (l : List Char) : List Char := sub2go (l.length + 1) l

/-- The text `_extract_json` works on after its two fence-stripping
substitutions: `text = re.sub(r"^```(?:json)?\s*", "", text.strip(), ...)`
then `text = re.sub(r"\s*```$", "", text.strip(), ...)`. -/
def strippedText (t : List Char) : List Char :=
  sub2 (pyStrip (sub1 (pyStrip t)))

/-- Python `text.find(ch)`: first index or `-1`. -/
def pyFind (l : List Char) (ch : Char) : Int :=
  match l.findIdx? (fun c => c = ch) with
  | some i => (i : Int)
  | none => -1

/-- Python `text.rfind(ch)`: last index or `-1`. -/
def pyRfind (l : List Char) (ch : Char) : Int :=
  match l.reverse.findIdx? (fun c => c = ch) with
  | some i => ((l.length - 1 - i : Nat) : Int)
  | none => -1

/-- Python `text[a : b + 1]` for `0 ≤ a ≤ b < len`. -/
def pySliceIncl (l : List Char) (a b : Nat) : List Char :=
  (l.drop a).take (b + 1 - a)

/-- One iteration of the bracket-pair loop of `_extract_json`:
`start = text.find(sc)`, skip on `-1`; `end = text.rfind(ec)`; attempt
`json.loads(text[start : end + 1])` only when `end > start`. -/
def tryPairCode (sc ec : Char) (t : List Char) : Option Json :=
  let start := pyFind t sc
  if start = -1 then none
  else
    let e := pyRfind t ec
    if e > start then parseJson (pySliceIncl t start.toNat e.toNat) else none

/-- Model of `_extract_json`: strip markdown fences, try a direct parse,
then try the `{`/`}` and `[`/`]` bracket spans in order; `None` if all
fail. -/
def extract_json (t : List Char) : Option Json :=
  let s := strippedText t
  match parseJson s with
  | some v => some v
  | none =>
    match tryPairCode lbraceC rbraceC s with
    | some v => some v
    | none => tryPairCode '[' ']' s

/-- A sanitized search result: the five-key dict literal `_sanitize_result`
builds.  The three `str(...)`-coerced fields are strings; `published_at`
is whatever Python value the `or`-chain produced. -/
structure SearchResult where
  title : List Char
  url : List Char
  source : List Char
  published_at : Json
  snippet : List Char

/-- Python truthiness of a JSON-decoded value. -/
def truthy : Json → Bool
  | Json.null => false
  | Json.bool b => b
  | Json.num n => n ≠ 0
  | Json.fnum lex =>
    -- a float literal is falsy exactly when its mantissa is all zeros;
    -- `NaN`/`Infinity` (which contain letters beyond the exponent marker)
    -- are truthy
    lex.any (fun c => c = 'N' || c = 'I') ||
      (lex.takeWhile (fun c => ¬(c = 'e' ∨ c = 'E'))).any
        (fun c => c.isDigit && c ≠ '0')
  | Json.str s => ¬s.isEmpty
  | Json.arr xs => ¬xs.isEmpty
  | Json.obj fs => ¬fs.isEmpty

/-- Python `a or b` on decoded values. -/
def pyOr (a b : Json) : Json := if truthy a then a else b

/-- Decimal digits of a natural number, fuel-guarded (the fuel `n + 1`
always suffices since `n / 10 < n` for positive `n`). -/
def natDigitsF : Nat → Nat → List Char
  | 0, _ => []
  | _ + 1, 0 => []
  | fuel + 1, n + 1 =>
    natDigitsF fuel ((n + 1) / 10) ++ [Char.ofNat ('0'.toNat + (n + 1) % 10)]

/-- Decimal digits of a natural number (for `str(...)` of integers). -/
def natDigits (n : Nat) : List Char := natDigitsF (n + 1) n

/-- Python `str(...)` of an integer. -/
def intStr (n : Int) : List Char :=
  if n = 0 then ['0']
  else if n < 0 then '-' :: natDigits n.natAbs
  else natDigits n.natAbs

mutual

/-- Python `str(...)` applied to a JSON-decoded value (as
`_sanitize_result` does); containers render via `repr`, approximated with
single-quoted strings and `, ` separators. -/
def pyStr : Json → List Char
  | Json.null => ['N', 'o', 'n', 'e']
  | Json.bool true => ['T', 'r', 'u', 'e']
  | Json.bool false => ['F', 'a', 'l', 's', 'e']
  | Json.num n => intStr n
  | Json.fnum lex => lex
  | Json.str s => s
  | Json.arr xs => '[' :: pyStrList xs ++ [']']
  | Json.obj fs => lbraceC :: pyStrFields fs ++ [rbraceC]

def pyStrList : List Json → List Char
  | [] => []
  | [x] => pyReprElem x
  | x :: xs => pyReprElem x ++ [',', ' '] ++ pyStrList xs

def pyStrFields : List (List Char × Json) → List Char
  | [] => []
  | [(k, v)] => sq :: k ++ [sq, ':', ' '] ++ pyReprElem v
  | (k, v) :: fs => sq :: k ++ [sq, ':', ' '] ++ pyReprElem v ++ [',', ' '] ++ pyStrFields fs

/-- `repr` of an element inside a container: like `pyStr` but strings are
single-quoted. -/
def pyReprElem : Json → List Char
  | Json.str s => sq :: s ++ [sq]
  | Json.null => ['N', 'o', 'n', 'e']
  | Json.bool true => ['T', 'r', 'u', 'e']
  | Json.bool false => ['F', 'a', 'l', 's', 'e']
  | Json.num n => intStr n
  | Json.fnum lex => lex
  | Json.arr xs => '[' :: pyStrList xs ++ [']']
  | Json.obj fs => lbraceC :: pyStrFields fs ++ [rbraceC]

end

/-- `raw.get(k)` on a decoded dict: Python dict lookup is last-wins over
the parse-order field list; a missing key yields `None`. -/
def dictGet (fields : List (List Char × Json)) (k : List Char) : Json :=
  match fields.reverse.find? (fun p => p.1 = k) with
  | some p => p.2
  | none => Json.null

/-- `raw.get(k)` distinguishing a missing key from a present `None`
(used for `parsed.get("query", query)` / `parsed.get("results", [])`). -/
def dictGetOpt (fields : List (List Char × Json)) (k : List Char) : Option Json :=
  match fields.reverse.find? (fun p => p.1 = k) with
  | some p => some p.2
  | none => none

/-- `_sanitize_result`: ensure every field exists; the three plain string
fields are built with `str(... or "")`, `published_at` with a bare
`or`-chain ending in `None`. -/
def sanitize_result (raw : List (List Char × Json)) : SearchResult :=
  { title := pyStr (pyOr (dictGet raw ['t', 'i', 't', 'l', 'e']) (Json.str []))
    url := pyStr (pyOr (dictGet raw ['u', 'r', 'l']) (Json.str []))
    source := pyStr (pyOr (pyOr (pyOr (dictGet raw ['s', 'o', 'u', 'r', 'c', 'e'])
      (dictGet raw ['d', 'o', 'm', 'a', 'i', 'n']))
      (dictGet raw ['p', 'u', 'b', 'l', 'i', 's', 'h', 'e', 'r'])) (Json.str []))
    published_at := pyOr (pyOr (pyOr
      (dictGet raw ['p', 'u', 'b', 'l', 'i', 's', 'h', 'e', 'd', '_', 'a', 't'])
      (dictGet raw ['p', 'u', 'b', 'l', 'i', 's', 'h', 'e', 'd', 'A', 't']))
      (dictGet raw ['d', 'a', 't', 'e'])) Json.null
    snippet := pyStr (pyOr (pyOr (dictGet raw ['s', 'n', 'i', 'p', 'p', 'e', 't'])
      (dictGet raw ['d', 'e', 's', 'c', 'r', 'i', 'p', 't', 'i', 'o', 'n'])) (Json.str [])) }

/-- `published_at` has the type the result schema declares: `str | None`. -/
def isStrOrNull : Json → Bool
  | Json.str _ => true
  | Json.null => true
  | _ => false

/-- `MAX_RESULTS` from the agent module. -/
def MAX_RESULTS : Int := 10

/-- `limit = min(max(1, limit), MAX_RESULTS)`. -/
def clampLimit (limit : Int) : Int := min (max 1 limit) MAX_RESULTS

/-- The extra instruction inserted when `mode == "news"`. -/
def mode_instruction_for (mode : List Char) : List Char :=
  if mode = "news".toList then
    ("Focus on RECENT NEWS articles. Prefer results from the last 7 days. " ++
      "Use news-specific search if available. ").toList
  else []

/-- The prompt f-string of `brave_search`, built after clamping `limit`. -/
def promptFor (query mode : List Char) (limit : Int) : List Char :=
  ("Search for: ").toList ++ query ++ ("\n\n").toList
  ++ mode_instruction_for mode
  ++ ("Use the brave-search-mcp tools to search the web.\n\n" ++
      "Return ONLY valid JSON with NO markdown, NO commentary, NO explanation.\n" ++
      "The JSON must follow this exact schema:\n\x7b\n  \"query\": \"").toList
  ++ query
  ++ ("\",\n  \"results\": [\n    \x7b\n      \"title\": \"<page title>\",\n" ++
      "      \"url\": \"<full URL>\",\n      \"source\": \"<publisher or domain name>\",\n" ++
      "      \"published_at\": \"<ISO 8601 date string or null>\",\n" ++
      "      \"snippet\": \"<brief description or summary>\"\n    \x7d\n  ]\n\x7d\n\n" ++
      "Return exactly ").toList
  ++ intStr limit
  ++ (" results. If fewer results are found, return as many as available. " ++
      "Output ONLY the JSON object, nothing else.").toList

/-- The `results` list after the per-element dict filter and sanitization:
`[_sanitize_result(r) for r in raw_results if isinstance(r, dict)]`. -/
def sanitizeList (xs : List Json) : List SearchResult :=
  xs.filterMap (fun r =>
    match r with
    | Json.obj f => some (sanitize_result f)
    | _ => none)

/-- The value `brave_search` returns: a `query` field (the original query
string, or whatever `parsed.get("query", query)` produced) and the
sanitized results. -/
structure SearchResponse where
  query : Json
  results : List SearchResult

/-- The post-extraction stage of `brave_search`: wrap a bare list, reject a
non-dict top level, read `results` (defaulting to the empty list), sanitize
dict elements, truncate to the clamped limit, and assemble the response. -/
def handleParsed (query : List Char) (lim : Int) (parsed : Json) : SearchResponse :=
  let parsed2 :=
    match parsed with
    | Json.arr _ => Json.obj [("query".toList, Json.str query), ("results".toList, parsed)]
    | _ => parsed
  match parsed2 with
  | Json.obj fields =>
    let rawResults :=
      match dictGetOpt fields ("results".toList) with
      | some v => v
      | none => Json.arr []
    let rrs :=
      match rawResults with
      | Json.arr xs => xs
      | _ => []
    { query :=
        match dictGetOpt fields ("query".toList) with
        | some v => v
        | none => Json.str query
      results := (sanitizeList rrs).take lim.toNat }
  | _ => { query := Json.str query, results := [] }

/-- Model of `brave_search`.  The remote invocation (`runner.run` through
`result.final_output`) is an opaque collaborator: a function from the
prompt to either a thrown error or a final output (`none` models a `None`
final output, mapped to `""` by `result.final_output or ""`).  The whole
body sits in a `try`/`except` whose only failure source is the runner. -/
def brave_search (query mode : List Char) (limit : Int)
    (runner : List Char → Except (List Char) (Option (List Char))) : SearchResponse :=
  let lim := clampLimit limit
  match runner (promptFor query mode lim) with
  | Except.error _ => { query := Json.str query, results := [] }
  | Except.ok finalOutput =>
    let rawOutput := finalOutput.getD []
    match extract_json rawOutput with
    | none => { query := Json.str query, results := [] }
    | some parsed => handleParsed query lim parsed

/-- Model of `dedalus-mcp/main.py`: the `sys.argv` vector handed to the
external `alpaca-mcp-server` CLI, as a function of the environment. -/
def cliArgv (env : List Char → Option (List Char)) : List (List Char) :=
  let host := (env ("HOST".toList)).getD ("0.0.0.0".toList)
  let port := (env ("PORT".toList)).getD ("8000".toList)
  let transport := (env ("MCP_TRANSPORT".toList)).getD ("streamable-http".toList)
  [("alpaca-mcp-server".toList), ("serve".toList),
   ("--transport".toList), transport,
   ("--host".toList), host,
   ("--port".toList), port]

/-- Spec-side reading of one bracket attempt: the first occurrence of the
opening character, the last occurrence of the closing character, and a
parse of the inclusive substring only when the closing position is after
the opening one. -/
def firstIdxOf (l : List Char) (ch : Char) : Option Nat :=
  l.findIdx? (fun c => c = ch)

def lastIdxOf (l : List Char) (ch : Char) : Option Nat :=
  match l.reverse.findIdx? (fun c => c = ch) with
  | some i => some (l.length - 1 - i)
  | none => none

def attemptPairSpec (sc ec : Char) (t : List Char) : Option Json :=
  match firstIdxOf t sc, lastIdxOf t ec with
  | some i, some j => if i < j then parseJson (pySliceIncl t i j) else none
  | _, _ => none

/-- Spec-side reading of the whole bracket phase: the `("{", "}")` pair
first, then `("[", "]")`; the sentinel `none` when both fail. -/
def bracketRecoverySpec (t : List Char) : Option Json :=
  match attemptPairSpec lbraceC rbraceC t with
  | some v => some v
  | none => attemptPairSpec '[' ']' t

/-- Wrapping a text in markdown fences tagged `json`:
three backticks, `json`, a newline, the text, a newline, three backticks. -/
def wrapFence (t : List Char) : List Char :=
  fenceM ++ jsonTag ++ '\n' :: (t ++ '\n' :: fenceM)

/- ### Helper lemmas -/

theorem length_dropWhile_le (p : Char → Bool) (l : List Char) :
    (l.dropWhile p).length ≤ l.length :=
  (List.dropWhile_sublist p).length_le

theorem mem_of_mem_dropWhile {a : Char} {p : Char → Bool} {l : List Char}
    (h : a ∈ l.dropWhile p) : a ∈ l :=
  (List.dropWhile_sublist p).mem h

theorem not_mem_pyStrip {t : List Char} (h : btk ∉ t) : btk ∉ pyStrip t := by
  intro hm
  apply h
  unfold pyStrip at hm
  rw [List.mem_reverse] at hm
  have hm2 := mem_of_mem_dropWhile hm
  rw [List.mem_reverse] at hm2
  exact mem_of_mem_dropWhile hm2

theorem head?_dropWhile_false {p : Char → Bool} {l : List Char} {c : Char}
    (h : (l.dropWhile p).head? = some c) : p c = false := by
  induction l with
  | nil => simp [List.dropWhile] at h
  | cons d l' ih =>
    by_cases hd : p d
    · rw [List.dropWhile_cons_of_pos hd] at h
      exact ih h
    · rw [List.dropWhile_cons_of_neg hd] at h
      simp at h
      subst h
      simpa using hd

theorem dropWhile_dropWhile (p : Char → Bool) (l : List Char) :
    (l.dropWhile p).dropWhile p = l.dropWhile p := by
  cases h : l.dropWhile p with
  | nil => rfl
  | cons c l' =>
    have hc : p c = false := head?_dropWhile_false (by rw [h]; rfl)
    exact List.dropWhile_cons_of_neg (by simp [hc])

theorem pyStrip_idem (l : List Char) : pyStrip (pyStrip l) = pyStrip l := by
  set A := l.dropWhile isPyWs with hA
  have hpre : pyStrip l <+: A := by
    have hsuf : A.reverse.dropWhile isPyWs <:+ A.reverse := List.dropWhile_suffix _
    have := List.reverse_prefix.mpr hsuf
    rwa [List.reverse_reverse] at this
  have hstep1 : (pyStrip l).dropWhile isPyWs = pyStrip l := by
    cases hB : pyStrip l with
    | nil => rfl
    | cons c B' =>
      obtain ⟨r, hr⟩ := hpre
      rw [hB] at hr
      have hhead : A.head? = some c := by rw [← hr]; rfl
      have hc : isPyWs c = false := by
        rw [hA] at hhead
        exact head?_dropWhile_false hhead
      rw [← hB]
      rw [hB]
      exact List.dropWhile_cons_of_neg (by simp [hc])
  show ((((pyStrip l).dropWhile isPyWs).reverse).dropWhile isPyWs).reverse = pyStrip l
  rw [hstep1]
  have : (pyStrip l).reverse = A.reverse.dropWhile isPyWs := by
    show ((A.reverse.dropWhile isPyWs).reverse).reverse = _
    rw [List.reverse_reverse]
  rw [this, dropWhile_dropWhile, ← this, List.reverse_reverse]

theorem pyStrip_cons_concat {c d : Char} (hc : isPyWs c = false) (hd : isPyWs d = false)
    (Y : List Char) : pyStrip (c :: (Y ++ [d])) = c :: (Y ++ [d]) := by
  unfold pyStrip
  rw [List.dropWhile_cons_of_neg (by simp [hc])]
  have h1 : (c :: (Y ++ [d])).reverse = d :: (Y.reverse ++ [c]) := by
    simp
  rw [h1, List.dropWhile_cons_of_neg (by simp [hd]), ← h1, List.reverse_reverse]

theorem isPyWs_btk : isPyWs btk = false := by decide

theorem wrapFence_shape (t : List Char) :
    wrapFence t = btk :: (([btk, btk] ++ jsonTag ++ '\n' :: t ++ ['\n', btk, btk]) ++ [btk]) := by
  simp [wrapFence, fenceM, jsonTag]

theorem pyStrip_wrapFence (t : List Char) : pyStrip (wrapFence t) = wrapFence t := by
  rw [wrapFence_shape]
  exact pyStrip_cons_concat isPyWs_btk isPyWs_btk _

theorem sub1go_id {l : List Char} (h : btk ∉ l) : ∀ (f : Nat) (b : Bool), sub1go f b l = l := by
  induction l with
  | nil => intro f b; cases f <;> rfl
  | cons c cs ih =>
    intro f b
    cases f with
    | zero => rfl
    | succ f' =>
      have hc : c ≠ btk := fun he => h (he ▸ List.mem_cons_self c cs)
      have hcond : ¬(b = true ∧ (c :: cs).take 3 = fenceM) := by
        rintro ⟨-, h3⟩
        rw [List.take_succ_cons] at h3
        simp only [fenceM] at h3
        injection h3 with h31 h32
        exact hc h31
      rw [sub1go, if_neg hcond]
      rw [ih (fun hm => h (List.mem_cons_of_mem c hm)) f' _]

theorem sub1go_fenceM {f : Nat} (hf : 1 ≤ f) : sub1go f true fenceM = [] := by
  obtain ⟨f1, rfl⟩ : ∃ f1, f = f1 + 1 := ⟨f - 1, by omega⟩
  show sub1go (f1 + 1) true (btk :: [btk, btk]) = []
  rw [sub1go, if_pos ⟨rfl, rfl⟩]
  cases f1 <;> rfl

theorem sub1go_tailFence :
    ∀ (u : List Char) (f : Nat) (b : Bool), btk ∉ u → u.length + 2 ≤ f →
      sub1go f b (u ++ '\n' :: fenceM) = u ++ ['\n'] := by
  intro u
  induction u with
  | nil =>
    intro f b _ hf
    obtain ⟨f1, rfl⟩ : ∃ f1, f = f1 + 1 := ⟨f - 1, by omega⟩
    show sub1go (f1 + 1) b ('\n' :: fenceM) = ['\n']
    have hcond : ¬(b = true ∧ ('\n' :: fenceM).take 3 = fenceM) := by
      rintro ⟨-, h3⟩
      simp [fenceM, List.take_succ_cons] at h3
      exact absurd h3 (by decide)
    rw [sub1go, if_neg hcond]
    have : sub1go f1 (decide ('\n' = '\n')) fenceM = [] := by
      have hd : decide ('\n' = '\n') = true := by decide
      rw [hd]
      exact sub1go_fenceM (by omega)
    rw [this]
  | cons c u' ih =>
    intro f b h hf
    obtain ⟨f1, rfl⟩ : ∃ f1, f = f1 + 1 := ⟨f - 1, by omega⟩
    have hc : c ≠ btk := fun he => h (he ▸ List.mem_cons_self c u')
    have hcond : ¬(b = true ∧ ((c :: u') ++ '\n' :: fenceM).take 3 = fenceM) := by
      rintro ⟨-, h3⟩
      rw [List.cons_append, List.take_succ_cons] at h3
      simp only [fenceM] at h3
      injection h3 with h31 h32
      exact hc h31
    rw [List.cons_append, sub1go, if_neg (by rw [← List.cons_append]; exact hcond)]
    rw [ih f1 _ (fun hm => h (List.mem_cons_of_mem c hm)) (by simp at hf ⊢; omega)]
    rfl

theorem sub1go_wrapFence (f : Nat) (t : List Char) (h : btk ∉ t) (hf : t.length + 4 ≤ f) :
    sub1go f true (wrapFence t) =
      if t.dropWhile isPyWs = [] then [] else t.dropWhile isPyWs ++ ['\n'] := by
  obtain ⟨f1, rfl⟩ : ∃ f1, f = f1 + 1 := ⟨f - 1, by omega⟩
  have hshape : wrapFence t
      = btk :: (btk :: btk :: 'j' :: 's' :: 'o' :: 'n' :: '\n' :: (t ++ '\n' :: fenceM)) := by
    simp [wrapFence, fenceM, jsonTag]
  rw [hshape, sub1go, if_pos ⟨rfl, rfl⟩]
  show sub1go f1
      (decide ((('\n' :: (t ++ '\n' :: fenceM)).takeWhile isPyWs).getLast? = some '\n'))
      (('\n' :: (t ++ '\n' :: fenceM)).dropWhile isPyWs)
    = if t.dropWhile isPyWs = [] then [] else t.dropWhile isPyWs ++ ['\n']
  by_cases hu : t.dropWhile isPyWs = []
  · have hall : ∀ c ∈ t, isPyWs c = true := List.dropWhile_eq_nil_iff.mp hu
    have hdrop : ('\n' :: (t ++ '\n' :: fenceM)).dropWhile isPyWs = fenceM := by
      rw [List.dropWhile_cons_of_pos (by decide), List.dropWhile_append_of_pos hall,
        List.dropWhile_cons_of_pos (by decide)]
      exact List.dropWhile_cons_of_neg (by simp [isPyWs_btk])
    have htake : (('\n' :: (t ++ '\n' :: fenceM)).takeWhile isPyWs) = '\n' :: (t ++ ['\n']) := by
      rw [List.takeWhile_cons_of_pos (by decide), List.takeWhile_append_of_pos hall,
        List.takeWhile_cons_of_pos (by decide)]
      have hfence : fenceM.takeWhile isPyWs = [] := by
        rw [show fenceM = btk :: [btk, btk] from rfl]
        exact List.takeWhile_cons_of_neg (by simp [isPyWs_btk])
      rw [hfence]
    have hlast : (('\n' :: (t ++ '\n' :: fenceM)).takeWhile isPyWs).getLast? = some '\n' := by
      rw [htake]
      rw [show ('\n' :: (t ++ ['\n'])) = ('\n' :: t) ++ ['\n'] by simp]
      exact List.getLast?_concat _
    rw [hdrop, hlast, if_pos hu]
    exact sub1go_fenceM (by omega)
  · obtain ⟨d, u', hd⟩ : ∃ d u', t.dropWhile isPyWs = d :: u' := by
      cases hdw : t.dropWhile isPyWs with
      | nil => exact absurd hdw hu
      | cons d u' => exact ⟨d, u', rfl⟩
    have hdws : isPyWs d = false := head?_dropWhile_false (by rw [hd]; rfl)
    have hdrop : ('\n' :: (t ++ '\n' :: fenceM)).dropWhile isPyWs
        = t.dropWhile isPyWs ++ '\n' :: fenceM := by
      rw [List.dropWhile_cons_of_pos (by decide)]
      conv_lhs => rw [← List.takeWhile_append_dropWhile isPyWs t, List.append_assoc]
      rw [List.dropWhile_append_of_pos (fun c hc => List.mem_takeWhile_imp hc), hd,
        List.cons_append, List.dropWhile_cons_of_neg (by simp [hdws]),
        ← List.cons_append, ← hd]
    rw [hdrop, if_neg hu]
    apply sub1go_tailFence
    · intro hm
      exact h (mem_of_mem_dropWhile hm)
    · have := length_dropWhile_le isPyWs t
      omega

theorem strippedText_wrapFence (t : List Char) (h : btk ∉ t) :
    strippedText (wrapFence t) = strippedText t := by
  have hsub1w : sub1 (wrapFence t)
      = if t.dropWhile isPyWs = [] then [] else t.dropWhile isPyWs ++ ['\n'] := by
    apply sub1go_wrapFence
    · exact h
    · simp only [wrapFence, fenceM, jsonTag, List.length_append, List.length_cons,
        List.length_nil]
      omega
  have hsub1u : sub1 (pyStrip t) = pyStrip t :=
    sub1go_id (not_mem_pyStrip h) _ _
  unfold strippedText
  rw [pyStrip_wrapFence, show sub1 (wrapFence t) = _ from hsub1w, hsub1u, pyStrip_idem]
  by_cases hu : t.dropWhile isPyWs = []
  · rw [if_pos hu]
    have hN : pyStrip t = [] := by
      unfold pyStrip
      rw [hu]
      rfl
    rw [hN]
    rfl
  · rw [if_neg hu]
    obtain ⟨d, u', hd⟩ : ∃ d u', t.dropWhile isPyWs = d :: u' := by
      cases hdw : t.dropWhile isPyWs with
      | nil => exact absurd hdw hu
      | cons d u' => exact ⟨d, u', rfl⟩
    have hdws : isPyWs d = false := head?_dropWhile_false (by rw [hd]; rfl)
    have hps : pyStrip (t.dropWhile isPyWs ++ ['\n']) = pyStrip t := by
      unfold pyStrip
      have h1 : (t.dropWhile isPyWs ++ ['\n']).dropWhile isPyWs
          = t.dropWhile isPyWs ++ ['\n'] := by
        rw [hd, List.cons_append]
        exact List.dropWhile_cons_of_neg (by simp [hdws])
      rw [h1]
      have h2 : (t.dropWhile isPyWs ++ ['\n']).reverse
          = '\n' :: (t.dropWhile isPyWs).reverse := by simp
      rw [h2, List.dropWhile_cons_of_pos (by decide)]
    rw [hps]

/- ### Claim theorems -/

/-- C8 (counterexample): output recovery is NOT invariant under wrapping in
markdown fences for every text.  For `t = " \x60\x60\x6042"` the unwrapped text
recovers the value `42`, while the fenced wrapping recovers nothing: the
leading-fence regex consumes the wrapper tag together with the following
whitespace run, which removes the line-start status of the inner fence, so
the inner fence survives and spoils the parse. -/
theorem fence_wrap_mismatch :
    extract_json ((" \x60\x60\x6042").toList) = some (Json.num 42) ∧
    extract_json (wrapFence ((" \x60\x60\x6042").toList)) = none ∧
    extract_json (wrapFence ((" \x60\x60\x6042").toList))
      ≠ extract_json ((" \x60\x60\x6042").toList) := by
  refine ⟨rfl, rfl, ?_⟩
  intro hcl
  have h2 : (none : Option Json) = some (Json.num 42) := hcl
  exact Option.noConfusion h2

/-- C8 (amended): for every text containing no backtick character, output
recovery applied to the text wrapped in markdown fences tagged `json`
yields the same parsed value as recovery applied to the unwrapped text. -/
theorem fence_wrap_invariant_backtick_free (t : List Char) (h : btk ∉ t) :
    extract_json (wrapFence t) = extract_json t := by
  unfold extract_json
  rw [strippedText_wrapFence t h]

/-- Witness for C8's amended theorem at a concrete backtick-free text. -/
theorem fence_wrap_invariant_backtick_free_witness :
    (btk ∉ ("see \x7b\"a\": [1]\x7d done").toList) ∧
    extract_json (wrapFence (("see \x7b\"a\": [1]\x7d done").toList))
      = extract_json (("see \x7b\"a\": [1]\x7d done").toList) :=
  ⟨by decide, fence_wrap_invariant_backtick_free _ (by decide)⟩

/-- C9: the CLI forwarder turns `HOST`, `PORT` and `MCP_TRANSPORT` (with
defaults `0.0.0.0`, `8000`, `streamable-http`) into exactly the argument
vector `serve --transport <t> --host <h> --port <p>` behind the program
name, for every environment; with an empty environment the defaults
appear verbatim. -/
theorem cli_forwarder_args :
    (∀ env : List Char → Option (List Char),
      cliArgv env =
        [("alpaca-mcp-server").toList, ("serve").toList,
         ("--transport").toList,
         (env (("MCP_TRANSPORT").toList)).getD (("streamable-http").toList),
         ("--host").toList, (env (("HOST").toList)).getD (("0.0.0.0").toList),
         ("--port").toList, (env (("PORT").toList)).getD (("8000").toList)]) ∧
    cliArgv (fun _ => none) =
      [("alpaca-mcp-server").toList, ("serve").toList,
       ("--transport").toList, ("streamable-http").toList,
       ("--host").toList, ("0.0.0.0").toList,
       ("--port").toList, ("8000").toList] :=
  ⟨fun _ => rfl, rfl⟩

/-- C10: any mode other than `"news"` behaves exactly like `"web"`: the
mode is never validated, the news instruction is omitted, the prompt is
identical to the web prompt, and the whole call agrees with the
`mode="web"` call for the same runner. -/
theorem mode_other_than_news_behaves_as_web
    (query mode : List Char) (limit : Int)
    (runner : List Char → Except (List Char) (Option (List Char)))
    (h : mode ≠ ("news").toList) :
    mode_instruction_for mode = [] ∧
    promptFor query mode limit = promptFor query (("web").toList) limit ∧
    brave_search query mode limit runner
      = brave_search query (("web").toList) limit runner := by
  have h1 : mode_instruction_for mode = [] := if_neg h
  have hweb : mode_instruction_for (("web").toList) = [] := if_neg (by decide)
  have h2 : ∀ L : Int, promptFor query mode L = promptFor query (("web").toList) L := by
    intro L
    unfold promptFor
    rw [h1, hweb]
  refine ⟨h1, h2 limit, ?_⟩
  simp only [brave_search]
  rw [h2 (clampLimit limit)]

/-- Witness for C10 at the concrete mode `"News"`. -/
theorem mode_other_than_news_behaves_as_web_witness :
    (("News").toList ≠ ("news").toList) ∧
    brave_search (("q").toList) (("News").toList) 8 (fun _ => Except.ok none)
      = brave_search (("q").toList) (("web").toList) 8 (fun _ => Except.ok none) :=
  ⟨by decide,
    (mode_other_than_news_behaves_as_web (("q").toList) (("News").toList) 8
      (fun _ => Except.ok none) (by decide)).2.2⟩

/-- C1 (code evaluation at the failing input): a recovered results record
`\x7b"published_at": 123\x7d` flows through `brave_search` into a result whose
`published_at` is the integer `123` — not a string and not null, violating
the declared invariant (and the function's own docstring). -/
theorem published_at_type_violation :
    (brave_search (("q").toList) (("web").toList) 8
        (fun _ => Except.ok (some (("\x7b\"results\": [\x7b\"published_at\": 123\x7d]\x7d").toList)))).results
      = [⟨[], [], [], Json.num 123, []⟩] ∧
    isStrOrNull (Json.num 123) = false :=
  ⟨rfl, rfl⟩

/-- C3 (code evaluation at the failing input): the sanitizer does read the
alternate field names and produces the documented result on the spec's own
example, but for a record `\x7b"date": 123\x7d` the `published_at` coercion
passes the truthy non-string value through unchanged instead of falling
back to null. -/
theorem sanitizer_field_coercion_violation :
    sanitize_result [((("title").toList), Json.str (("X").toList)),
        ((("domain").toList), Json.str (("example.com").toList))]
      = ⟨("X").toList, [], ("example.com").toList, Json.null, []⟩ ∧
    (sanitize_result [((("date").toList), Json.num 123)]).published_at = Json.num 123 ∧
    Json.num 123 ≠ Json.null :=
  ⟨rfl, rfl, fun hc => Json.noConfusion hc⟩

/-- C2: `brave_search` never propagates a failure: a thrown runner error is
converted to `\x7bquery, results: []\x7d`, and unparseable output likewise
yields `\x7bquery, results: []\x7d`. -/
theorem brave_search_never_raises
    (query mode : List Char) (limit : Int)
    (runner : List Char → Except (List Char) (Option (List Char))) :
    (∀ e, runner (promptFor query mode (clampLimit limit)) = Except.error e →
      brave_search query mode limit runner = ⟨Json.str query, []⟩) ∧
    (∀ fo, runner (promptFor query mode (clampLimit limit)) = Except.ok fo →
      extract_json (fo.getD []) = none →
      brave_search query mode limit runner = ⟨Json.str query, []⟩) := by
  constructor
  · intro e he
    simp only [brave_search, he]
  · intro fo hfo hex
    simp only [brave_search, hfo, hex]

/-- Witness for C2: a throwing runner and an unparseable output both
resolve to the empty response. -/
theorem brave_search_never_raises_witness :
    brave_search (("q").toList) (("web").toList) 8
        (fun _ => Except.error (("boom").toList)) = ⟨Json.str (("q").toList), []⟩ ∧
    brave_search (("q").toList) (("web").toList) 8
        (fun _ => Except.ok (some (("not json at all").toList)))
      = ⟨Json.str (("q").toList), []⟩ :=
  ⟨(brave_search_never_raises (("q").toList) (("web").toList) 8
      (fun _ => Except.error (("boom").toList))).1 _ rfl,
    (brave_search_never_raises (("q").toList) (("web").toList) 8
      (fun _ => Except.ok (some (("not json at all").toList)))).2 _ rfl rfl⟩

/-- C7: a recovered bare JSON array is wrapped as
`\x7bquery: originalQuery, results: <the array>\x7d`, the array then passing
through sanitization and the limit. -/
theorem bare_array_wrapped
    (query mode : List Char) (limit : Int)
    (runner : List Char → Except (List Char) (Option (List Char)))
    (fo : Option (List Char)) (xs : List Json)
    (hr : runner (promptFor query mode (clampLimit limit)) = Except.ok fo)
    (hx : extract_json (fo.getD []) = some (Json.arr xs)) :
    brave_search query mode limit runner
      = ⟨Json.str query, (sanitizeList xs).take (clampLimit limit).toNat⟩ := by
  simp only [brave_search, hr, hx, handleParsed, dictGetOpt]
  simp [List.find?]

/-- Witness for C7 at a concrete bare-array output. -/
theorem bare_array_wrapped_witness :
    brave_search (("q").toList) (("web").toList) 8
        (fun _ => Except.ok (some (("[\x7b\"title\": \"a\"\x7d, \"drop\", \x7b\"title\": \"b\"\x7d]").toList)))
      = ⟨Json.str (("q").toList),
          (sanitizeList [Json.obj [((("title").toList), Json.str (("a").toList))],
            Json.str (("drop").toList),
            Json.obj [((("title").toList), Json.str (("b").toList))]]).take
            (clampLimit 8).toNat⟩ :=
  bare_array_wrapped (("q").toList) (("web").toList) 8 _ _ _ rfl rfl

/-- C4 (counterexample): the response's `query` field is taken from the
recovered value whenever the key is present, even when its value is falsy.
With recovered `\x7b"query": "", "results": []\x7d` and input query `"q"` the
code returns `""`, not the original query as the claim's truthiness
condition demands. -/
theorem query_field_truthiness_counterexample :
    (brave_search (("q").toList) (("web").toList) 8
        (fun _ => Except.ok (some (("\x7b\"query\": \"\", \"results\": []\x7d").toList)))).query
      = Json.str [] ∧
    (brave_search (("q").toList) (("web").toList) 8
        (fun _ => Except.ok (some (("\x7b\"query\": \"\", \"results\": []\x7d").toList)))).query
      ≠ Json.str (("q").toList) := by
  refine ⟨rfl, ?_⟩
  intro hc
  have h2 : Json.str [] = Json.str (("q").toList) := hc
  simp at h2

/-- C4 (amended): the `query` field of the response equals the recovered
value's own `query` field whenever that key is present — whatever its
value, falsy or not — and equals the original input query only when the
key is absent. -/
theorem query_field_presence
    (query mode : List Char) (limit : Int)
    (runner : List Char → Except (List Char) (Option (List Char)))
    (fo : Option (List Char)) (fields : List (List Char × Json))
    (hr : runner (promptFor query mode (clampLimit limit)) = Except.ok fo)
    (hx : extract_json (fo.getD []) = some (Json.obj fields)) :
    (∀ v, dictGetOpt fields (("query").toList) = some v →
      (brave_search query mode limit runner).query = v) ∧
    (dictGetOpt fields (("query").toList) = none →
      (brave_search query mode limit runner).query = Json.str query) := by
  constructor
  · intro v hv
    simp only [brave_search, hr, hx, handleParsed, hv]
  · intro hv
    simp only [brave_search, hr, hx, handleParsed, hv]

/-- Witness for C4's amended theorem: a present (truthy) `query` key is
returned, and an absent key falls back to the input query. -/
theorem query_field_presence_witness :
    (brave_search (("q").toList) (("web").toList) 8
        (fun _ => Except.ok (some (("\x7b\"query\": \"model\"\x7d").toList)))).query
      = Json.str (("model").toList) ∧
    (brave_search (("q").toList) (("web").toList) 8
        (fun _ => Except.ok (some (("\x7b\"results\": []\x7d").toList)))).query
      = Json.str (("q").toList) :=
  ⟨(query_field_presence (("q").toList) (("web").toList) 8
      (fun _ => Except.ok (some (("\x7b\"query\": \"model\"\x7d").toList))) _ _ rfl rfl).1
      _ rfl,
    (query_field_presence (("q").toList) (("web").toList) 8
      (fun _ => Except.ok (some (("\x7b\"results\": []\x7d").toList))) _ _ rfl rfl).2 rfl⟩

/-- The `results` field of any assembled response is truncated to the
(already clamped) limit. -/
theorem handleParsed_results_length (query : List Char) (lim : Int) (p : Json) :
    (handleParsed query lim p).results.length ≤ lim.toNat := by
  unfold handleParsed
  cases p <;> first
    | exact List.length_take_le _ _
    | simp

/-- C6: the effective limit is `clamp(limit, 1, 10)`: the returned results
never exceed it, and when a results array is recovered the returned records
are exactly the first clamped-limit sanitized records, in original order
(truncation after sanitization). -/
theorem limit_clamped_and_truncated_after_sanitize
    (query mode : List Char) (limit : Int)
    (runner : List Char → Except (List Char) (Option (List Char))) :
    ((brave_search query mode limit runner).results.length
        ≤ (min (max 1 limit) 10).toNat) ∧
    (∀ fo fields xs,
      runner (promptFor query mode (clampLimit limit)) = Except.ok fo →
      extract_json (fo.getD []) = some (Json.obj fields) →
      dictGetOpt fields (("results").toList) = some (Json.arr xs) →
      (brave_search query mode limit runner).results
        = (sanitizeList xs).take (min (max 1 limit) 10).toNat) := by
  constructor
  · show (brave_search query mode limit runner).results.length ≤ (clampLimit limit).toNat
    simp only [brave_search]
    split
    · simp
    · split
      · simp
      · exact handleParsed_results_length query (clampLimit limit) _
  · intro fo fields xs hr hx hres
    simp only [brave_search, hr, hx, handleParsed, hres]
    rfl

/-- Witness for C6: fifteen valid records with `limit = 5` yield exactly
the first five sanitized records, in original order. -/
theorem limit_clamped_and_truncated_after_sanitize_witness :
    (brave_search (("q").toList) (("web").toList) 5
        (fun _ => Except.ok (some (("\x7b\"results\": [\x7b\"title\": \"t0\"\x7d, \x7b\"title\": \"t1\"\x7d, \x7b\"title\": \"t2\"\x7d, \x7b\"title\": \"t3\"\x7d, \x7b\"title\": \"t4\"\x7d, \x7b\"title\": \"t5\"\x7d, \x7b\"title\": \"t6\"\x7d, \x7b\"title\": \"t7\"\x7d, \x7b\"title\": \"t8\"\x7d, \x7b\"title\": \"t9\"\x7d, \x7b\"title\": \"t10\"\x7d, \x7b\"title\": \"t11\"\x7d, \x7b\"title\": \"t12\"\x7d, \x7b\"title\": \"t13\"\x7d, \x7b\"title\": \"t14\"\x7d]\x7d").toList)))).results
      = (sanitizeList [Json.obj [((("title").toList), Json.str (("t0").toList))],
          Json.obj [((("title").toList), Json.str (("t1").toList))],
          Json.obj [((("title").toList), Json.str (("t2").toList))],
          Json.obj [((("title").toList), Json.str (("t3").toList))],
          Json.obj [((("title").toList), Json.str (("t4").toList))],
          Json.obj [((("title").toList), Json.str (("t5").toList))],
          Json.obj [((("title").toList), Json.str (("t6").toList))],
          Json.obj [((("title").toList), Json.str (("t7").toList))],
          Json.obj [((("title").toList), Json.str (("t8").toList))],
          Json.obj [((("title").toList), Json.str (("t9").toList))],
          Json.obj [((("title").toList), Json.str (("t10").toList))],
          Json.obj [((("title").toList), Json.str (("t11").toList))],
          Json.obj [((("title").toList), Json.str (("t12").toList))],
          Json.obj [((("title").toList), Json.str (("t13").toList))],
          Json.obj [((("title").toList), Json.str (("t14").toList))]]).take
          (min (max 1 (5 : Int)) 10).toNat :=
  (limit_clamped_and_truncated_after_sanitize (("q").toList) (("web").toList) 5
      (fun _ => Except.ok (some (("\x7b\"results\": [\x7b\"title\": \"t0\"\x7d, \x7b\"title\": \"t1\"\x7d, \x7b\"title\": \"t2\"\x7d, \x7b\"title\": \"t3\"\x7d, \x7b\"title\": \"t4\"\x7d, \x7b\"title\": \"t5\"\x7d, \x7b\"title\": \"t6\"\x7d, \x7b\"title\": \"t7\"\x7d, \x7b\"title\": \"t8\"\x7d, \x7b\"title\": \"t9\"\x7d, \x7b\"title\": \"t10\"\x7d, \x7b\"title\": \"t11\"\x7d, \x7b\"title\": \"t12\"\x7d, \x7b\"title\": \"t13\"\x7d, \x7b\"title\": \"t14\"\x7d]\x7d").toList)))).2
    _ _ _ rfl rfl rfl

/-- The code's bracket attempt (Python `find`/`rfind` with `-1` sentinels
and the `end > start` guard) agrees with the spec-side description in
first/last-occurrence terms. -/
theorem tryPairCode_eq_spec (sc ec : Char) (t : List Char) :
    tryPairCode sc ec t = attemptPairSpec sc ec t := by
  unfold tryPairCode attemptPairSpec pyFind pyRfind firstIdxOf lastIdxOf
  cases hf : t.findIdx? (fun c => c = sc) with
  | none => simp
  | some i =>
    have hi : ¬((i : Int) = -1) := by omega
    cases hr : t.reverse.findIdx? (fun c => c = ec) with
    | none =>
      simp only [if_neg hi]
      rw [if_neg (by omega)]
    | some j =>
      simp only [if_neg hi]
      by_cases hij : i < t.length - 1 - j
      · rw [if_pos (by omega), if_pos hij]
        have h1 : ((i : Int)).toNat = i := by omega
        have h2 : (((t.length - 1 - j : Nat) : Int)).toNat = t.length - 1 - j := by omega
        rw [h1, h2]
      · rw [if_neg (by omega), if_neg hij]

/-- C5: on any text whose direct parse (after fence stripping) fails, the
recovery proceeds exactly as described — `("\x7b", "\x7d")` then `("[", "]")`,
first opening occurrence to last closing occurrence, parsing the inclusive
substring only when the closing position is after the opening one — and
empty text recovers nothing; all failures yield the sentinel `none`. -/
theorem bracket_recovery_matches_description :
    (∀ t : List Char, parseJson (strippedText t) = none →
      extract_json t = bracketRecoverySpec (strippedText t)) ∧
    extract_json [] = none := by
  constructor
  · intro t hp
    simp only [extract_json, bracketRecoverySpec]
    rw [hp, tryPairCode_eq_spec, tryPairCode_eq_spec]
  · rfl

/-- Witness for C5 at a concrete text whose direct parse fails but whose
brace span parses. -/
theorem bracket_recovery_matches_description_witness :
    parseJson (strippedText (("junk \x7b\"a\": 1\x7d end").toList)) = none ∧
    extract_json (("junk \x7b\"a\": 1\x7d end").toList)
      = bracketRecoverySpec (strippedText (("junk \x7b\"a\": 1\x7d end").toList)) ∧
    extract_json (("junk \x7b\"a\": 1\x7d end").toList)
      = some (Json.obj [((("a").toList), Json.num 1)]) :=
  ⟨rfl,
    bracket_recovery_matches_description.1 (("junk \x7b\"a\": 1\x7d end").toList) rfl,
    rfl⟩

end StonksGPT
